import Mathlib

/-!
# PNG chunk reader (`png_util.cpp`): embedding and verified properties

The C++ program reads a PNG file through one `std::ifstream`.  The stream is
embedded as an explicit state (file contents, read position, `eofbit`,
`failbit`) and every function of the program that touches it is a pure
function from the state before the call to the state after it.

Automatic variables that the source leaves uninitialised (`char byte;`,
`char b1, b2, b3, b4;`) are given their indeterminate initial content as an
explicit argument, so that a failed `get`, which leaves its target unchanged,
is visible in the model.
-/

namespace PngUtil

/-! ## Constants and data model -/

/-- One octet of the file, as the bit pattern `0..255`. -/
abbrev Byte := Fin 256

/-- Source: `static const int PNG_SIG_SZ = 8;` -/
def PNG_SIG_SZ : Nat := 8

/-- Source: `static const int PNG_IHDR_SZ = 13;` -/
def PNG_IHDR_SZ : Nat := 13

/-- Source: `static const int PNG_CLR_DEPTH = 5;` -/
def PNG_CLR_DEPTH : Nat := 5

/-- Source: `static const int PNG_SIG[PNG_SIG_SZ]`. -/
def PNG_SIG : List Nat := [137, 80, 78, 71, 13, 10, 26, 10]

/-- Source: `static const int BIT_DEPTH[PNG_CLR_DEPTH]` (declared, never read). -/
def BIT_DEPTH : List Nat := [1, 2, 4, 8, 16]

/-- Source: `struct ImageHeader`; the two `unsigned int` fields are 32 bits wide,
the five `unsigned char` fields are one byte each. -/
structure ImageHeader where
  width : Nat
  height : Nat
  bit_depth : Byte
  color_type : Byte
  compression : Byte
  filter : Byte
  interlace : Byte
  deriving DecidableEq, Repr

/-! ## The input stream -/

/-- State of a `std::ifstream` opened on a file: the bytes of the file, the
read position, and the two state bits the program can set (`badbit` needs an
I/O error of the device and is not modelled). -/
structure ifstream where
  data : List Byte
  pos : Nat
  eofbit : Bool
  failbit : Bool
  deriving DecidableEq, Repr

namespace ifstream

/-- A stream as `fs.open` leaves it on success and any later successful seek
moves it: no state bit set, the cursor at `pos`. -/
def opened (data : List Byte) (pos : Nat) : ifstream :=
  { data := data, pos := pos, eofbit := false, failbit := false }

/-- Source `fs.good()`: no state bit is set. -/
def good (fs : ifstream) : Bool := !fs.eofbit && !fs.failbit

/-- Source `fs.fail()`. -/
def fail (fs : ifstream) : Bool := fs.failbit

/-- Source `fs.get(c)`: the sentry sets `failbit` when the stream is not good; at the
end of the file `eofbit` and `failbit` are set; in both cases `c` keeps the
value it had.  Otherwise the byte under the cursor is stored and the cursor
advances by one. -/
def get (fs : ifstream) (c : Byte) : ifstream × Byte :=
  if fs.good then
    match fs.data[fs.pos]? with
    | some b => ({ fs with pos := fs.pos + 1 }, b)
    | none => ({ fs with eofbit := true, failbit := true }, c)
  else ({ fs with failbit := true }, c)

/-- Source `fs.tellg()`: the position, or `-1` when the stream has failed (the sentry
sets `failbit` when the stream is not good). -/
def tellg (fs : ifstream) : ifstream × Int :=
  if fs.good then (fs, (fs.pos : Int)) else ({ fs with failbit := true }, -1)

/-- Source `fs.seekg(off, fs.beg)` and `fs.seekg(pos)`: `eofbit` is cleared first; a
failed stream is left alone; a negative target sets `failbit`; any other
target becomes the position (a file position past the end is legal). -/
def seekg_beg (fs : ifstream) (off : Int) : ifstream :=
  let fs := { fs with eofbit := false }
  if fs.failbit then fs
  else if off < 0 then { fs with failbit := true }
  else { fs with pos := off.toNat }

/-- Source `fs.seekg(off, fs.cur)`: as `seekg_beg`, the target counted from the
current position. -/
def seekg_cur (fs : ifstream) (off : Int) : ifstream :=
  let fs := { fs with eofbit := false }
  if fs.failbit then fs
  else if (fs.pos : Int) + off < 0 then { fs with failbit := true }
  else { fs with pos := ((fs.pos : Int) + off).toNat }

end ifstream

/-- Conversion of a stream offset to `int` (32 bits, two's complement), as in
`int cur = fs.tellg();`. -/
def to_int (n : Int) : Int := (n + 2 ^ 31) % 2 ^ 32 - 2 ^ 31

/-! ## `png_check_sig` -/

/-- The `for` loop of `png_check_sig`, entered at index `i` with `n` iterations
left (`n = PNG_SIG_SZ - i`): the stream paired with `true` when the loop runs
to its end, with `false` when the function returns `false` from inside. -/
def png_check_sig_loop (fs : ifstream) (byte : Byte) (i : Nat) : Nat → ifstream × Bool
  | 0 => (fs, true)
  | n + 1 =>
    let r := fs.get byte
    let ubyte : Nat := r.2.val
    if ubyte ≠ PNG_SIG.getD i 0 then (r.1, false)
    else png_check_sig_loop r.1 r.2 (i + 1) n

/-- Source: `bool png_check_sig(ifstream &fs)`.  `byte` is the indeterminate
initial content of the local `char byte`.  The result is the stream after the
call and the returned flag.  `fs.seekg(fs.beg)` is the one-argument `seekg`, its
argument the enumerator `beg` converted to the position 0.  The position is
sought again on the `return true` path only. -/
def png_check_sig (fs : ifstream) (byte : Byte) : ifstream × Bool :=
  let t := fs.tellg
  let cur : Int := to_int t.2
  let fs := t.1.seekg_beg 0
  let r := png_check_sig_loop fs byte 0 PNG_SIG_SZ
  if r.2 then (r.1.seekg_beg cur, true) else (r.1, false)

/-! ## `read_uint` -/

/-- Indeterminate initial content of the four locals `b1, b2, b3, b4` of
`read_uint`. -/
structure UintLocals where
  b4 : Byte
  b3 : Byte
  b2 : Byte
  b1 : Byte
  deriving DecidableEq, Repr

/-- Source: `unsigned int read_uint(ifstream &fs)`.  Four `get`s in the order
`b4, b3, b2, b1`, then `(ub4 << 24) | (ub3 << 16) | (ub2 << 8) | ub1` converted
to `unsigned int` (reduction modulo `2^32`; the shifts are on the bit patterns,
as two's complement `int` does them). -/
def read_uint (fs : ifstream) (l : UintLocals) : ifstream × Nat :=
  let r4 := fs.get l.b4
  let r3 := r4.1.get l.b3
  let r2 := r3.1.get l.b2
  let r1 := r2.1.get l.b1
  let ub4 : Nat := r4.2.val
  let ub3 : Nat := r3.2.val
  let ub2 : Nat := r2.2.val
  let ub1 : Nat := r1.2.val
  let val : Nat := ((ub4 <<< 24) ||| (ub3 <<< 16) ||| (ub2 <<< 8) ||| ub1) % 2 ^ 32
  (r1.1, val)

/-! ## `png_get_ihdr` -/

/-- The three places where `png_get_ihdr` ends the process: `cerr << ...`
followed by `exit(0)`. -/
inductive BadByte where
  | compression
  | filter
  | interlace
  deriving DecidableEq, Repr

/-- Indeterminate initial content of the automatic variables of one call of
`png_get_ihdr`: its own `char byte` and the locals of its two `read_uint`
calls. -/
structure IhdrLocals where
  byte : Byte
  w : UintLocals
  h : UintLocals
  deriving DecidableEq, Repr

/-- How a call of `png_get_ihdr` ends: it returns a header (and leaves the
stream in some state), or it ends the process at one of the three checks. -/
inductive IhdrResult where
  | returned (fs : ifstream) (ihdr : ImageHeader)
  | exited (why : BadByte)
  deriving DecidableEq, Repr

/-- What the caller sees of an `IhdrResult` apart from the stream: the header,
or the check that ended the process. -/
inductive IhdrOutcome where
  | header (ihdr : ImageHeader)
  | exit (why : BadByte)
  deriving DecidableEq, Repr

/-- Projection of a result on what the caller sees of it. -/
def IhdrResult.outcome : IhdrResult → IhdrOutcome
  | .returned _ ihdr => .header ihdr
  | .exited why => .exit why

/-- Source: `ImageHeader png_get_ihdr(ifstream &fs)`. -/
def png_get_ihdr (fs : ifstream) (l : IhdrLocals) : IhdrResult :=
  let t := fs.tellg
  let cur : Int := to_int t.2
  -- skip file signature
  let fs := t.1.seekg_beg (PNG_SIG_SZ : Int)
  -- NUL, NUL, NUL, CR
  let fs := fs.seekg_cur 4
  -- 'I', 'H', 'D', 'R'
  let fs := fs.seekg_cur 4
  let rw := read_uint fs l.w
  let rh := read_uint rw.1 l.h
  let g1 := rh.1.get l.byte
  let g2 := g1.1.get g1.2
  let g3 := g2.1.get g2.2
  if g3.2 ≠ 0 then .exited .compression
  else
    let g4 := g3.1.get g3.2
    if g4.2 ≠ 0 then .exited .filter
    else
      let g5 := g4.1.get g4.2
      if g5.2 ≠ 0 then .exited .interlace
      else
        .returned (g5.1.seekg_beg cur)
          { width := rw.2, height := rh.2, bit_depth := g1.2, color_type := g2.2,
            compression := g3.2, filter := g4.2, interlace := g5.2 }

/-- The minimal PNG file: signature, `IHDR` chunk (length 13, tag, 1 x 1,
bit depth 8, colour type 2, compression 0, filter 0, interlace 0, CRC),
`IEND` chunk. -/
def minimal_png : List Byte :=
  [137, 80, 78, 71, 13, 10, 26, 10,
   0, 0, 0, 13, 73, 72, 68, 82,
   0, 0, 0, 1, 0, 0, 0, 1, 8, 2, 0, 0, 0,
   144, 119, 83, 222,
   0, 0, 0, 0, 73, 69, 78, 68, 174, 66, 96, 130]

/-- Big-endian unsigned value of the four bytes of `data` at offsets
`p .. p + 3`, the value `read_uint` returns there (`read_uint_big_endian`); an
offset past the end counts as a zero byte. -/
def be_u32 (data : List Byte) (p : Nat) : Nat :=
  (data.getD p 0).val * 2 ^ 24 + (data.getD (p + 1) 0).val * 2 ^ 16
    + (data.getD (p + 2) 0).val * 2 ^ 8 + (data.getD (p + 3) 0).val

/-- The table of the specification (section 4.4) of the bit depths allowed for
each colour type.  The source has no counterpart of it: `BIT_DEPTH` is never
read and `color_t` is used by `main` only. -/
def spec_allowed_bit_depth (color_type bit_depth : Nat) : Bool :=
  match color_type with
  | 0 => decide (bit_depth ∈ [1, 2, 4, 8, 16])
  | 2 => decide (bit_depth ∈ [8, 16])
  | 3 => decide (bit_depth ∈ [1, 2, 4, 8])
  | 4 => decide (bit_depth ∈ [8, 16])
  | 6 => decide (bit_depth ∈ [8, 16])
  | _ => false

/-- Two streams that no read at or after offset `k` can tell apart: the same
state bits, the same bytes from offset `k` on and, unless they have failed, the
same cursor, at `k` or later. -/
def ifstream.sim (k : Nat) (a b : ifstream) : Prop :=
  a.eofbit = b.eofbit ∧ a.failbit = b.failbit ∧
  (∀ i, k ≤ i → a.data[i]? = b.data[i]?) ∧
  (a.failbit = false → a.pos = b.pos ∧ k ≤ a.pos)

/-- Locals that happen to hold zero bytes. -/
def zero_locals : IhdrLocals := ⟨0, ⟨0, 0, 0, 0⟩, ⟨0, 0, 0, 0⟩⟩

/-! ## `png_get_idat` and `main` -/

/-- Source: `enum color_t`, enumerator `GS`. -/
def GS : Nat := 0

/-- Source: `enum color_t`, enumerator `RGB = 2`. -/
def RGB : Nat := 2

/-- Source: `enum color_t`, enumerator `PLTE_IDX`, the successor of `RGB`. -/
def PLTE_IDX : Nat := 3

/-- Source: `enum color_t`, enumerator `GS_A`, the successor of `PLTE_IDX`. -/
def GS_A : Nat := 4

/-- Source: `enum color_t`, enumerator `RGB_A = 6`. -/
def RGB_A : Nat := 6

/-- Source: `void png_get_idat(ifstream &fs)`: two `read_uint`s, printed as
"chunk length" and "chunk type".  The result is the stream after the call and
the two values printed. -/
def png_get_idat (fs : ifstream) (l1 l2 : UintLocals) : ifstream × Nat × Nat :=
  let r1 := read_uint fs l1
  let chunk_length := r1.2
  let r2 := read_uint r1.1 l2
  let chunk_type := r2.2
  (r2.1, chunk_length, chunk_type)

/-- Indeterminate initial content of the automatic variables of the calls made
by `main`. -/
structure MainLocals where
  sig_byte : Byte
  ihdr : IhdrLocals
  idat_length : UintLocals
  idat_type : UintLocals
  deriving DecidableEq, Repr

/-- Source: `main`, the two blocks "check and skip file signature" and "get and
skip image header", on the stream as opened.  The flag returned by
`png_check_sig` is dropped, as in the source.  The result is that of
`png_get_ihdr`, the stream being the one after the three relative seeks. -/
def main_skip_ihdr (fs : ifstream) (l : MainLocals) : IhdrResult :=
  let c := png_check_sig fs l.sig_byte
  let fs := c.1.seekg_beg (PNG_SIG_SZ : Int)
  match png_get_ihdr fs l.ihdr with
  | .exited why => .exited why
  | .returned fs ihdr =>
    -- NUL NUL NUL CR
    let fs := fs.seekg_cur 4
    -- I H D R
    let fs := fs.seekg_cur 4
    let fs := fs.seekg_cur (PNG_IHDR_SZ : Int)
    .returned fs ihdr

/-- How `main` ends once the file is open. -/
inductive MainResult where
  | exited_ihdr (why : BadByte)
  | exited_palette (ihdr : ImageHeader)
  | done (fs : ifstream) (ihdr : ImageHeader) (idat : Option (Nat × Nat))
  deriving DecidableEq, Repr

/-- Source: `main` from "check and skip file signature" to its end.  `idat` is
the pair printed by `png_get_idat` as chunk length and chunk type, present for
the colour type `RGB_A` only. -/
def main_parse (fs : ifstream) (l : MainLocals) : MainResult :=
  match main_skip_ihdr fs l with
  | .exited why => .exited_ihdr why
  | .returned fs ihdr =>
    if ihdr.color_type.val = GS then .done fs ihdr none
    else if ihdr.color_type.val = RGB then .done fs ihdr none
    else if ihdr.color_type.val = PLTE_IDX then .exited_palette ihdr
    else if ihdr.color_type.val = GS_A then .done fs ihdr none
    else if ihdr.color_type.val = RGB_A then
      let r := png_get_idat fs l.idat_length l.idat_type
      .done r.1 ihdr (some r.2)
    else .done fs ihdr none

/-- Locals of `main` that happen to hold zero bytes. -/
def main_zero_locals : MainLocals := ⟨0, zero_locals, ⟨0, 0, 0, 0⟩, ⟨0, 0, 0, 0⟩⟩

/-- The minimal PNG file with colour type 6 (`RGB_A`) in place of 2, the one
colour type for which `main` calls `png_get_idat`. -/
def minimal_rgba_png : List Byte := minimal_png.set 25 6

/-! ## `is_png_ext` -/

/-- Conversion of an `int` to `size_t` (64 bits), as for the second argument of
`input.find`. -/
def to_size_t (z : Int) : Nat := (z % 2 ^ 64).toNat

/-- Search of `std::string::find`: the lowest position at or after `x`, among
the next `n` ones, where `pat` occurs in `input`. -/
def string_find_from (input pat : List Char) : Nat → Nat → Option Nat
  | 0, _ => none
  | n + 1, x =>
    if pat.isPrefixOf (input.drop x) then some x
    else string_find_from input pat n (x + 1)

/-- Source `input.find(pat, pos)`: the lowest position `x` with `pos ≤ x` and
`x ≤ input.size()` where `pat` occurs, `none` standing for `string::npos`. -/
def string_find (input pat : List Char) (pos : Nat) : Option Nat :=
  string_find_from input pat (input.length + 1 - pos) pos

/-- Source: `bool is_png_ext(string input)` (the message printed on `false` is
left out).  `sizeof(".png")` is 5. -/
def is_png_ext (input : List Char) : Bool :=
  let TERM_CHAR : Int := 1
  let len : Int := to_int (input.length : Int)
  let ext_len : Int := 5 - TERM_CHAR
  if len < ext_len ||
      string_find input ['.', 'p', 'n', 'g'] (to_size_t (len - ext_len)) == none then
    false
  else
    true

/-! ## `find_idat` -/

/-- Source: `char str[] = {'I', 'D', 'A', 'T'};` in `find_idat`. -/
def find_idat_str : List Nat := [73, 68, 65, 84]

/-- Source: the body of the `while` of `find_idat`,
`for (int i = 0; i < 4; i++) { if (b1 == str[i]) { } }`, as a function of the
stream: the `if` has an empty branch. -/
def find_idat_body (b1 : Byte) (fs : ifstream) : ifstream :=
  (List.range 4).foldl (fun st i => if b1.val = find_idat_str.getD i 0 then st else st) fs

/-- The `while (fs.get(b1))` loop of `find_idat` run for at most `fuel`
iterations: `none` when the fuel is used up before a `get` fails, otherwise the
stream after the loop and the number of times the body ran. -/
def find_idat_loop : Nat → ifstream → Byte → Option (ifstream × Nat)
  | 0, _, _ => none
  | fuel + 1, fs, b1 =>
    let r := fs.get b1
    if r.1.fail then some (r.1, 0)
    else (find_idat_loop fuel (find_idat_body r.2 r.1) r.2).map (fun q => (q.1, q.2 + 1))

/-- How a call of `find_idat` ends.  The function is declared `int` and its
body has no `return` statement: once the loop is left, control flows off the
end of a value-returning function, which is undefined behaviour.  No value is
returned, and of an execution that reaches this point the language promises
nothing, the loop included (a compiler may, and optimising ones do, drop the
exit of the loop).  `fs` and `iterations` are the stream and the number of runs
of the loop body at the point where the behaviour becomes undefined.  There is
no constructor for a returned value. -/
inductive FindIdatEnd where
  | flows_off_end (fs : ifstream) (iterations : Nat)
  deriving DecidableEq, Repr

/-- Source: `int find_idat(ifstream &fs)`: `none` when the fuel is used up inside
the loop, otherwise the only end the body has. -/
def find_idat (fuel : Nat) (fs : ifstream) (b1 : Byte) : Option FindIdatEnd :=
  (find_idat_loop fuel (fs.seekg_beg (PNG_IHDR_SZ : Int)) b1).map
    (fun q => FindIdatEnd.flows_off_end q.1 q.2)

/-! ## Lemmas on the stream primitives -/

theorem ifstream.get_opened (data : List Byte) (p : Nat) (c b : Byte)
    (h : data[p]? = some b) :
    (ifstream.opened data p).get c = (ifstream.opened data (p + 1), b) := by
  simp [ifstream.get, ifstream.opened, ifstream.good, h]

theorem ifstream.get_opened_lt (data : List Byte) (p : Nat) (c : Byte) (h : p < data.length) :
    (ifstream.opened data p).get c = (ifstream.opened data (p + 1), data[p]) :=
  ifstream.get_opened data p c _ (List.getElem?_eq_getElem h)

theorem ifstream.tellg_opened (data : List Byte) (p : Nat) :
    (ifstream.opened data p).tellg = (ifstream.opened data p, (p : Int)) := by
  simp [ifstream.tellg, ifstream.opened, ifstream.good]

theorem ifstream.seekg_beg_opened (data : List Byte) (p q : Nat) :
    (ifstream.opened data p).seekg_beg (q : Int) = ifstream.opened data q := by
  simp [ifstream.seekg_beg, ifstream.opened]

theorem ifstream.seekg_cur_opened (data : List Byte) (p q : Nat) :
    (ifstream.opened data p).seekg_cur (q : Int) = ifstream.opened data (p + q) := by
  simp only [ifstream.seekg_cur, ifstream.opened]
  have h : ¬ ((p : Int) + (q : Int) < 0) := by omega
  simp [h]
  omega

/-- On bytes, the shift-and-or of `read_uint` is the big-endian sum. -/
theorem shift_or_eq_sum (a b c d : Nat) (hb : b < 256) (hc : c < 256) (hd : d < 256) :
    (a <<< 24) ||| (b <<< 16) ||| (c <<< 8) ||| d = a * 2 ^ 24 + b * 2 ^ 16 + c * 2 ^ 8 + d := by
  simp only [Nat.shiftLeft_eq]
  have h1 : a * 2 ^ 24 ||| b * 2 ^ 16 = 2 ^ 16 * (a * 2 ^ 8 + b) := by
    have h := Nat.mul_add_lt_is_or (i := 24) (b := b * 2 ^ 16) (by omega) a
    rw [Nat.mul_comm a, ← h]; ring
  have h2 : 2 ^ 16 * (a * 2 ^ 8 + b) ||| c * 2 ^ 8 = 2 ^ 8 * (a * 2 ^ 16 + b * 2 ^ 8 + c) := by
    have h := Nat.mul_add_lt_is_or (i := 16) (b := c * 2 ^ 8) (by omega) (a * 2 ^ 8 + b)
    rw [← h]; ring
  have h3 := Nat.mul_add_lt_is_or (i := 8) (b := d) (by omega) (a * 2 ^ 16 + b * 2 ^ 8 + c)
  rw [h1, h2, ← h3]; ring

/-- Value and effect of `read_uint` on a good stream with four bytes under the cursor. -/
theorem read_uint_opened (data : List Byte) (p : Nat) (l : UintLocals) (a b c d : Byte)
    (ha : data[p]? = some a) (hb : data[p + 1]? = some b) (hc : data[p + 2]? = some c)
    (hd : data[p + 3]? = some d) :
    read_uint (ifstream.opened data p) l =
      (ifstream.opened data (p + 4),
        a.val * 2 ^ 24 + b.val * 2 ^ 16 + c.val * 2 ^ 8 + d.val) := by
  have e : read_uint (ifstream.opened data p) l =
      (ifstream.opened data (p + 4),
        ((a.val <<< 24) ||| (b.val <<< 16) ||| (c.val <<< 8) ||| d.val) % 2 ^ 32) := by
    simp only [read_uint, ifstream.get_opened data p _ a ha,
      ifstream.get_opened data (p + 1) _ b hb, ifstream.get_opened data (p + 2) _ c hc,
      ifstream.get_opened data (p + 3) _ d hd]
  rw [e, shift_or_eq_sum _ _ _ _ b.isLt c.isLt d.isLt]
  have h1 := a.isLt
  have h2 := b.isLt
  have h3 := c.isLt
  have h4 := d.isLt
  rw [Nat.mod_eq_of_lt (by omega)]

theorem ifstream.seekg_cur_opened_four (data : List Byte) (p : Nat) :
    (ifstream.opened data p).seekg_cur 4 = ifstream.opened data (p + 4) :=
  ifstream.seekg_cur_opened data p 4

theorem be_u32_eq (data : List Byte) (p : Nat) (h : p + 4 ≤ data.length) :
    be_u32 data p = data[p].val * 2 ^ 24 + data[p + 1].val * 2 ^ 16 + data[p + 2].val * 2 ^ 8
          + data[p + 3].val := by
  simp only [be_u32, List.getD_eq_getElem?_getD]
  rw [List.getElem?_eq_getElem (show p < data.length by omega),
    List.getElem?_eq_getElem (show p + 1 < data.length by omega),
    List.getElem?_eq_getElem (show p + 2 < data.length by omega),
    List.getElem?_eq_getElem (show p + 3 < data.length by omega)]
  rfl

theorem be_u32_lt (data : List Byte) (p : Nat) : be_u32 data p < 2 ^ 32 := by
  have h1 := (data.getD p 0).isLt
  have h2 := (data.getD (p + 1) 0).isLt
  have h3 := (data.getD (p + 2) 0).isLt
  have h4 := (data.getD (p + 3) 0).isLt
  simp only [be_u32]
  omega

/-- Value and effect of `read_uint` on a good stream with at least four bytes from the cursor on. -/
theorem read_uint_opened_lt (data : List Byte) (p : Nat) (l : UintLocals)
    (h : p + 4 ≤ data.length) :
    read_uint (ifstream.opened data p) l = (ifstream.opened data (p + 4), be_u32 data p) := by
  rw [be_u32_eq data p h]
  exact read_uint_opened data p l data[p] data[p + 1] data[p + 2] data[p + 3]
    (List.getElem?_eq_getElem _) (List.getElem?_eq_getElem _) (List.getElem?_eq_getElem _)
    (List.getElem?_eq_getElem _)

/-- The whole of `png_get_ihdr` on a good stream of at least 29 bytes: the
fields are read at the absolute offsets 16 to 28, whatever the cursor was. -/
theorem png_get_ihdr_opened (data : List Byte) (pos : Nat) (l : IhdrLocals)
    (h : 29 ≤ data.length) :
    png_get_ihdr (ifstream.opened data pos) l =
      if data[26] ≠ 0 then .exited .compression
      else if data[27] ≠ 0 then .exited .filter
      else if data[28] ≠ 0 then .exited .interlace
      else .returned ((ifstream.opened data 29).seekg_beg (to_int pos))
        { width := be_u32 data 16, height := be_u32 data 20, bit_depth := data[24],
          color_type := data[25], compression := data[26], filter := data[27],
          interlace := data[28] } := by
  have hw := read_uint_opened_lt data 16 l.w (by omega)
  have hh := read_uint_opened_lt data 20 l.h (by omega)
  have e16 : PNG_SIG_SZ + 4 + 4 = 16 := rfl
  simp only [png_get_ihdr, ifstream.tellg_opened, ifstream.seekg_beg_opened,
    ifstream.seekg_cur_opened_four, e16, hw, hh,
    ifstream.get_opened_lt data 24 _ (by omega), ifstream.get_opened_lt data 25 _ (by omega),
    ifstream.get_opened_lt data 26 _ (by omega), ifstream.get_opened_lt data 27 _ (by omega),
    ifstream.get_opened_lt data 28 _ (by omega)]

/-- The returning case of `png_get_ihdr_opened`. -/
theorem png_get_ihdr_opened_ok (data : List Byte) (pos : Nat) (l : IhdrLocals)
    (h : 29 ≤ data.length) (h26 : data[26] = 0) (h27 : data[27] = 0) (h28 : data[28] = 0) :
    png_get_ihdr (ifstream.opened data pos) l =
      .returned ((ifstream.opened data 29).seekg_beg (to_int pos))
        { width := be_u32 data 16, height := be_u32 data 20, bit_depth := data[24],
          color_type := data[25], compression := 0, filter := 0, interlace := 0 } := by
  rw [png_get_ihdr_opened data pos l h]
  simp [h26, h27, h28]

/-! ## Lemmas on the loop of `png_check_sig` -/

theorem ifstream.get_stuck (fs : ifstream) (c : Byte)
    (h : fs.good = false ∨ fs.data[fs.pos]? = none) :
    (fs.get c).2 = c ∧ (fs.get c).1.good = false := by
  unfold ifstream.get
  cases hg : fs.good
  · simp [ifstream.good]
  · rcases h with h | h
    · rw [hg] at h; cases h
    · simp [h, ifstream.good]

theorem ifstream.get_of_some (fs : ifstream) (c b : Byte) (hg : fs.good = true)
    (h : fs.data[fs.pos]? = some b) :
    fs.get c = ({ fs with pos := fs.pos + 1 }, b) := by
  simp [ifstream.get, hg, h]

/-- Two neighbours in the signature are never equal. -/
theorem PNG_SIG_neighbours (i : Nat) (h : i + 1 < 8) :
    PNG_SIG.getD i 0 ≠ PNG_SIG.getD (i + 1) 0 := by
  have hi : i < 7 := by omega
  interval_cases i <;> decide

/-- Once a `get` fails all later ones do, and the loop compares the same byte
with every remaining entry of the signature. -/
theorem png_check_sig_loop_stuck (n : Nat) :
    ∀ (fs : ifstream) (byte : Byte) (i : Nat), fs.good = false →
      (png_check_sig_loop fs byte i n).2 = true →
      ∀ k, k < n → byte.val = PNG_SIG.getD (i + k) 0 := by
  induction n with
  | zero => intro _ _ _ _ _ k hk; omega
  | succ n ih =>
    intro fs byte i hg h k hk
    have hs := ifstream.get_stuck fs byte (Or.inl hg)
    simp only [png_check_sig_loop] at h
    split at h
    · cases h
    · rename_i hne
      rw [hs.1] at hne h
      have hne : byte.val = PNG_SIG.getD i 0 := by simpa using hne
      cases k with
      | zero => simpa using hne
      | succ k =>
        have e := ih _ byte (i + 1) hs.2 h k (by omega)
        rw [e]; congr 1; omega

/-- When the loop entered at index `i` runs to the end of the signature, every
one of its reads succeeded and matched.  `hb` says that `byte` is what a
successful earlier iteration left in it. -/
theorem png_check_sig_loop_true (n : Nat) :
    ∀ (fs : ifstream) (byte : Byte) (i : Nat), i + n = 8 →
      (i = 0 ∨ byte.val = PNG_SIG.getD (i - 1) 0) →
      (png_check_sig_loop fs byte i n).2 = true →
      (0 < n → fs.good = true) ∧
      ∀ k, k < n → ∃ b : Byte, fs.data[fs.pos + k]? = some b ∧ b.val = PNG_SIG.getD (i + k) 0 := by
  induction n with
  | zero => intro _ _ _ _ _ _; exact ⟨fun h => by omega, fun k hk => by omega⟩
  | succ n ih =>
    intro fs byte i hin hb h
    have stuck_false : fs.good = false ∨ fs.data[fs.pos]? = none → False := by
      intro hst
      have hs := ifstream.get_stuck fs byte hst
      simp only [png_check_sig_loop] at h
      split at h
      · cases h
      · rename_i hne
        rw [hs.1] at hne h
        have hne : byte.val = PNG_SIG.getD i 0 := by simpa using hne
        rcases hb with hb | hb
        · subst hb
          have e := png_check_sig_loop_stuck n _ byte 1 hs.2 h 0 (by omega)
          rw [hne] at e
          exact absurd e (by decide)
        · have hi : 0 < i := by
            rcases Nat.eq_zero_or_pos i with h0 | h0
            · subst h0
              have e := png_check_sig_loop_stuck n _ byte 1 hs.2 h 0 (by omega)
              rw [hne] at e
              exact absurd e (by decide)
            · exact h0
          have hnb := PNG_SIG_neighbours (i - 1) (by omega)
          rw [← hb, hne] at hnb
          apply hnb
          congr 1; omega
    have hg : fs.good = true := by
      cases hgood : fs.good
      · exact (stuck_false (Or.inl hgood)).elim
      · rfl
    cases hd : fs.data[fs.pos]? with
    | none => exact (stuck_false (Or.inr hd)).elim
    | some b =>
      refine ⟨fun _ => hg, ?_⟩
      simp only [png_check_sig_loop, ifstream.get_of_some fs byte b hg hd] at h
      split at h
      · cases h
      · rename_i hne
        have hne : b.val = PNG_SIG.getD i 0 := by simpa using hne
        have r := (ih _ b (i + 1) (by omega) (Or.inr (by simpa using hne)) h).2
        intro k hk
        cases k with
        | zero => exact ⟨b, by simpa using hd, by simpa using hne⟩
        | succ k =>
          obtain ⟨b', h1, h2⟩ := r k (by omega)
          refine ⟨b', ?_, ?_⟩
          · rw [← h1]; congr 1; simp only []; omega
          · rw [h2]; congr 1; omega

/-- When all `n` bytes from the cursor on match the signature from index `i`
on, the loop runs to its end and leaves the cursor behind them. -/
theorem png_check_sig_loop_match (n : Nat) :
    ∀ (data : List Byte) (p : Nat) (byte : Byte) (i : Nat),
      (∀ k, k < n → ∃ b : Byte, data[p + k]? = some b ∧ b.val = PNG_SIG.getD (i + k) 0) →
      png_check_sig_loop (ifstream.opened data p) byte i n
        = (ifstream.opened data (p + n), true) := by
  induction n with
  | zero => intro _ _ _ _ _; rfl
  | succ n ih =>
    intro data p byte i h
    obtain ⟨b, hb, hv⟩ := h 0 (by omega)
    simp only [png_check_sig_loop, ifstream.get_opened data p byte b (by simpa using hb)]
    rw [if_neg (by simpa using hv)]
    rw [ih data (p + 1) b (i + 1)
      (fun k hk => by
        obtain ⟨b', h1, h2⟩ := h (k + 1) (by omega)
        refine ⟨b', ?_, ?_⟩
        · rw [← h1]; congr 1; omega
        · rw [h2]; congr 1; omega)]
    congr 2; omega

theorem PNG_SIG_getElem? (i : Nat) (h : i < 8) : PNG_SIG[i]? = some (PNG_SIG.getD i 0) := by
  interval_cases i <;> rfl

theorem ifstream.seekg_beg_zero_tellg (fs : ifstream) :
    (fs.tellg.1.seekg_beg 0).data = fs.data ∧
    ((fs.tellg.1.seekg_beg 0).good = true → (fs.tellg.1.seekg_beg 0).pos = 0) := by
  unfold ifstream.tellg ifstream.seekg_beg
  cases hg : fs.good <;> cases hf : fs.failbit <;> simp [ifstream.good, hf]

/-- The flag returned by `png_check_sig` is true only when the first eight bytes
of the file are read and are the signature. -/
theorem png_check_sig_true (fs : ifstream) (byte : Byte)
    (h : (png_check_sig fs byte).2 = true) :
    ∀ k, k < 8 → ∃ b : Byte, fs.data[k]? = some b ∧ b.val = PNG_SIG.getD k 0 := by
  have hl : (png_check_sig_loop (fs.tellg.1.seekg_beg 0) byte 0 8).2 = true := by
    cases hr : (png_check_sig_loop (fs.tellg.1.seekg_beg 0) byte 0 8).2
    · simp [png_check_sig, PNG_SIG_SZ, hr] at h
    · rfl
  have r := png_check_sig_loop_true 8 _ byte 0 rfl (Or.inl rfl) hl
  have hs := ifstream.seekg_beg_zero_tellg fs
  have hp := hs.2 (r.1 (by omega))
  intro k hk
  obtain ⟨b, h1, h2⟩ := r.2 k hk
  rw [hs.1, hp] at h1
  exact ⟨b, by simpa using h1, by simpa using h2⟩

/-! ## The bytes before offset 16 are never read by `png_get_ihdr` -/

theorem ifstream.get_sim {k : Nat} {a b : ifstream} (h : ifstream.sim k a b) (c : Byte) :
    (a.get c).2 = (b.get c).2 ∧ ifstream.sim k (a.get c).1 (b.get c).1 := by
  obtain ⟨da, pa, ea, fa⟩ := a
  obtain ⟨db, pb, eb, fb⟩ := b
  obtain ⟨he, hf, hd, hk⟩ := h
  simp only at he hf hd hk
  subst he hf
  cases fa
  · obtain ⟨hp, hkp⟩ := hk rfl
    subst hp
    cases ea
    · have e := hd pa hkp
      simp only [ifstream.get, ifstream.good, ← e]
      cases da[pa]? with
      | none => exact ⟨rfl, rfl, rfl, hd, fun h => by cases h⟩
      | some x => exact ⟨rfl, rfl, rfl, hd, fun _ => ⟨rfl, Nat.le_succ_of_le hkp⟩⟩
    · exact ⟨rfl, rfl, rfl, hd, fun h => by cases h⟩
  · cases ea <;> exact ⟨rfl, rfl, rfl, hd, fun h => by cases h⟩

theorem read_uint_sim {k : Nat} {a b : ifstream} (h : ifstream.sim k a b) (l : UintLocals) :
    (read_uint a l).2 = (read_uint b l).2 ∧ ifstream.sim k (read_uint a l).1 (read_uint b l).1 := by
  obtain ⟨e4, s4⟩ := ifstream.get_sim h l.b4
  obtain ⟨e3, s3⟩ := ifstream.get_sim s4 l.b3
  obtain ⟨e2, s2⟩ := ifstream.get_sim s3 l.b2
  obtain ⟨e1, s1⟩ := ifstream.get_sim s2 l.b1
  simp only [read_uint]
  exact ⟨by rw [e4, e3, e2, e1], s1⟩

/-- After the three seeks of `png_get_ihdr` two streams with the same state bits
and the same bytes from offset 16 on are indistinguishable. -/
theorem png_get_ihdr_seeks_sim (a b : ifstream) (he : a.eofbit = b.eofbit)
    (hf : a.failbit = b.failbit) (hd : ∀ i, 16 ≤ i → a.data[i]? = b.data[i]?) :
    ifstream.sim 16 (((a.tellg.1.seekg_beg (PNG_SIG_SZ : Int)).seekg_cur 4).seekg_cur 4)
      (((b.tellg.1.seekg_beg (PNG_SIG_SZ : Int)).seekg_cur 4).seekg_cur 4) := by
  obtain ⟨da, pa, ea, fa⟩ := a
  obtain ⟨db, pb, eb, fb⟩ := b
  simp only at he hf hd
  subst he hf
  cases ea <;> cases fa <;>
    simp [ifstream.sim, ifstream.tellg, ifstream.seekg_beg, ifstream.seekg_cur, ifstream.good,
      PNG_SIG_SZ] <;> exact hd

/-- The outcome of `png_get_ihdr` is the same on two streams with the same
state bits and the same bytes from offset 16 on. -/
theorem png_get_ihdr_outcome_sim (a b : ifstream) (l : IhdrLocals) (he : a.eofbit = b.eofbit)
    (hf : a.failbit = b.failbit) (hd : ∀ i, 16 ≤ i → a.data[i]? = b.data[i]?) :
    (png_get_ihdr a l).outcome = (png_get_ihdr b l).outcome := by
  have s0 := png_get_ihdr_seeks_sim a b he hf hd
  simp only [png_get_ihdr]
  generalize ((a.tellg.1.seekg_beg (PNG_SIG_SZ : Int)).seekg_cur 4).seekg_cur 4 = A at s0 ⊢
  generalize ((b.tellg.1.seekg_beg (PNG_SIG_SZ : Int)).seekg_cur 4).seekg_cur 4 = B at s0 ⊢
  generalize to_int a.tellg.2 = ca
  generalize to_int b.tellg.2 = cb
  obtain ⟨e1, s1⟩ := read_uint_sim s0 l.w
  generalize read_uint A l.w = ra at e1 s1 ⊢
  generalize read_uint B l.w = rb at e1 s1 ⊢
  obtain ⟨e2, s2⟩ := read_uint_sim s1 l.h
  generalize read_uint ra.1 l.h = rha at e2 s2 ⊢
  generalize read_uint rb.1 l.h = rhb at e2 s2 ⊢
  obtain ⟨e3, s3⟩ := ifstream.get_sim s2 l.byte
  generalize rha.1.get l.byte = g1a at e3 s3 ⊢
  generalize rhb.1.get l.byte = g1b at e3 s3 ⊢
  obtain ⟨e4, s4⟩ := ifstream.get_sim s3 g1a.2
  rw [← e1, ← e2, ← e3]
  generalize g1a.1.get g1a.2 = g2a at e4 s4 ⊢
  generalize g1b.1.get g1a.2 = g2b at e4 s4 ⊢
  obtain ⟨e5, s5⟩ := ifstream.get_sim s4 g2a.2
  rw [← e4]
  generalize g2a.1.get g2a.2 = g3a at e5 s5 ⊢
  generalize g2b.1.get g2a.2 = g3b at e5 s5 ⊢
  obtain ⟨e6, s6⟩ := ifstream.get_sim s5 g3a.2
  rw [← e5]
  generalize g3a.1.get g3a.2 = g4a at e6 s6 ⊢
  generalize g3b.1.get g3a.2 = g4b at e6 s6 ⊢
  obtain ⟨e7, s7⟩ := ifstream.get_sim s6 g4a.2
  rw [← e6]
  generalize g4a.1.get g4a.2 = g5a at e7 s7 ⊢
  generalize g4b.1.get g4a.2 = g5b at e7 s7 ⊢
  rw [← e7]
  split_ifs <;> rfl

/-- Two files with the same tail after heads of one length have the same byte
at every offset past the head. -/
theorem getElem?_append_of_length {α : Type} (pre pre' rest : List α) (hl : pre.length = pre'.length)
    (i : Nat) (hi : pre.length ≤ i) : (pre ++ rest)[i]? = (pre' ++ rest)[i]? := by
  rw [List.getElem?_append_right hi, List.getElem?_append_right (by omega), hl]

/-! ## The cursor after `png_check_sig` and `png_get_ihdr` -/

theorem to_int_of_lt (p : Nat) (h : p < 2 ^ 31) : to_int (p : Int) = (p : Int) := by
  unfold to_int
  norm_num at h ⊢
  omega

theorem ifstream.get_pos_le (fs : ifstream) (c : Byte) : (fs.get c).1.pos ≤ fs.pos + 1 := by
  unfold ifstream.get
  split
  · split <;> simp
  · simp

theorem png_check_sig_loop_pos_le (n : Nat) :
    ∀ (fs : ifstream) (byte : Byte) (i : Nat),
      (png_check_sig_loop fs byte i n).1.pos ≤ fs.pos + n := by
  induction n with
  | zero => intro fs _ _; exact Nat.le_refl _
  | succ n ih =>
    intro fs byte i
    have h1 := ifstream.get_pos_le fs byte
    simp only [png_check_sig_loop]
    split
    · show (fs.get byte).1.pos ≤ fs.pos + (n + 1)
      omega
    · have h2 := ih (fs.get byte).1 (fs.get byte).2 (i + 1)
      omega

/-- On a good stream of at least 29 bytes entered at a position below `2^31`,
a returning `png_get_ihdr` leaves the stream as it found it. -/
theorem png_get_ihdr_opened_restores (data : List Byte) (pos : Nat) (l : IhdrLocals)
    (h : 29 ≤ data.length) (h26 : data[26] = 0) (h27 : data[27] = 0) (h28 : data[28] = 0)
    (hp : pos < 2 ^ 31) :
    png_get_ihdr (ifstream.opened data pos) l =
      .returned (ifstream.opened data pos)
        { width := be_u32 data 16, height := be_u32 data 20, bit_depth := data[24],
          color_type := data[25], compression := 0, filter := 0, interlace := 0 } := by
  rw [png_get_ihdr_opened_ok data pos l h h26 h27 h28, to_int_of_lt pos hp,
    ifstream.seekg_beg_opened]

/-! ## Lemmas on `is_png_ext` -/

theorem string_find_from_eq_none (input pat : List Char) :
    ∀ (n x : Nat), string_find_from input pat n x = none ↔
      ∀ k, k < n → pat.isPrefixOf (input.drop (x + k)) = false := by
  intro n
  induction n with
  | zero => intro x; simp [string_find_from]
  | succ n ih =>
    intro x
    simp only [string_find_from]
    cases hp : pat.isPrefixOf (input.drop x)
    · simp only [Bool.false_eq_true, if_false, ih (x + 1)]
      constructor
      · intro h k hk
        cases k with
        | zero => simpa using hp
        | succ k =>
          have e := h k (by omega)
          rw [show x + (k + 1) = x + 1 + k by omega]
          exact e
      · intro h k hk
        have e := h (k + 1) (by omega)
        rw [show x + (k + 1) = x + 1 + k by omega] at e
        exact e
    · simp only [if_true]
      constructor
      · intro h; cases h
      · intro h
        have e := h 0 (by omega)
        rw [Nat.add_zero, hp] at e
        cases e

/-- A pattern of four characters occurs at or after position `length - 4` only
as the last four characters. -/
theorem string_find_last_four (input pat : List Char) (hp : pat.length = 4)
    (hl : 4 ≤ input.length) :
    string_find input pat (input.length - 4) ≠ none ↔ input.drop (input.length - 4) = pat := by
  unfold string_find
  rw [Ne, string_find_from_eq_none]
  constructor
  · intro h
    by_contra hne
    apply h
    intro k hk
    cases hb : pat.isPrefixOf (input.drop (input.length - 4 + k))
    · rfl
    · exfalso
      have hpre := List.isPrefixOf_iff_prefix.mp hb
      have hlen := hpre.length_le
      rw [List.length_drop, hp] at hlen
      have hk0 : k = 0 := by omega
      subst hk0
      apply hne
      rw [Nat.add_zero] at hpre
      exact (hpre.eq_of_length (by rw [List.length_drop, hp]; omega)).symm
  · intro h hall
    have e := hall 0 (by omega)
    rw [Nat.add_zero, h] at e
    have : pat.isPrefixOf pat = true := List.isPrefixOf_iff_prefix.mpr (List.prefix_refl pat)
    rw [this] at e
    cases e

theorem to_size_t_of_nonneg (n : Nat) (h : n < 2 ^ 64) : to_size_t (n : Int) = n := by
  unfold to_size_t
  norm_num at h ⊢
  omega

/-- The whole of `is_png_ext` on a string whose size fits in an `int`. -/
theorem is_png_ext_of_lt (s : List Char) (h : s.length < 2 ^ 31) :
    is_png_ext s = true ↔ 4 ≤ s.length ∧ s.drop (s.length - 4) = ['.', 'p', 'n', 'g'] := by
  have hlen : to_int (s.length : Int) = (s.length : Int) := to_int_of_lt s.length h
  unfold is_png_ext
  simp only [hlen]
  by_cases h4 : 4 ≤ s.length
  · have hsub : ((s.length : Int) - (5 - 1)) = ((s.length - 4 : Nat) : Int) := by omega
    have hlt : ¬ ((s.length : Int) < 5 - 1) := by omega
    rw [hsub, to_size_t_of_nonneg (s.length - 4) (by norm_num at h ⊢; omega)]
    have key := string_find_last_four s ['.', 'p', 'n', 'g'] rfl h4
    cases hf : string_find s ['.', 'p', 'n', 'g'] (s.length - 4) with
    | none =>
      rw [hf] at key
      simp only [hlt, decide_False, Bool.false_or, beq_self_eq_true, if_true,
        Bool.false_eq_true, false_iff, not_and]
      intro _ hd
      exact (key.mpr hd) rfl
    | some x =>
      rw [hf] at key
      have hd := key.mp (by simp)
      simp [hlt, h4, hd]
  · have hlt : (s.length : Int) < 5 - 1 := by omega
    simp [hlt, h4]

/-- A string of `2^31` characters is rejected whatever its end: its size
converted to `int` is negative. -/
theorem is_png_ext_of_int_overflow (pre : List Char) (h : pre.length = 2 ^ 31 - 4) :
    is_png_ext (pre ++ ['.', 'p', 'n', 'g']) = false ∧
    4 ≤ (pre ++ ['.', 'p', 'n', 'g']).length ∧
    (pre ++ ['.', 'p', 'n', 'g']).drop ((pre ++ ['.', 'p', 'n', 'g']).length - 4)
      = ['.', 'p', 'n', 'g'] := by
  have hl : (pre ++ ['.', 'p', 'n', 'g']).length = 2 ^ 31 := by
    rw [List.length_append, h]
    rfl
  have e : (pre ++ ['.', 'p', 'n', 'g']).length - 4 = pre.length := by
    rw [List.length_append]
    rfl
  refine ⟨?_, ?_, ?_⟩
  · unfold is_png_ext
    rw [hl]
    have hneg : to_int ((2 ^ 31 : Nat) : Int) < 5 - 1 := by
      unfold to_int
      norm_num
    simp only [hneg, decide_True, Bool.true_or, if_true]
  · rw [hl]
    norm_num
  · rw [e]
    exact List.drop_left pre _

/-! ## The outcome of `png_get_ihdr` as a function of bytes 16 to 28 -/

theorem getD_eq_getElem_of_lt (data : List Byte) (i : Nat) (h : i < data.length) :
    data.getD i 0 = data[i] := by
  rw [List.getD_eq_getElem?_getD, List.getElem?_eq_getElem h]
  rfl

/-- The outcome of `png_get_ihdr` on a good stream of at least 29 bytes, written
with the bytes at offsets 16 to 28 only. -/
theorem png_get_ihdr_opened_outcome (data : List Byte) (pos : Nat) (l : IhdrLocals)
    (h : 29 ≤ data.length) :
    (png_get_ihdr (ifstream.opened data pos) l).outcome =
      if data.getD 26 0 ≠ 0 then .exit .compression
      else if data.getD 27 0 ≠ 0 then .exit .filter
      else if data.getD 28 0 ≠ 0 then .exit .interlace
      else .header
        { width := be_u32 data 16, height := be_u32 data 20, bit_depth := data.getD 24 0,
          color_type := data.getD 25 0, compression := data.getD 26 0,
          filter := data.getD 27 0, interlace := data.getD 28 0 } := by
  rw [png_get_ihdr_opened data pos l h, getD_eq_getElem_of_lt data 24 (by omega),
    getD_eq_getElem_of_lt data 25 (by omega), getD_eq_getElem_of_lt data 26 (by omega),
    getD_eq_getElem_of_lt data 27 (by omega), getD_eq_getElem_of_lt data 28 (by omega)]
  split_ifs <;> rfl

/-- Two files with the same 13 bytes at offsets 16 to 28 have the same byte at
each of these offsets. -/
theorem getD_of_window (data data' : List Byte)
    (hw : (data.drop 16).take 13 = (data'.drop 16).take 13) (i : Nat) (hi : i < 13) :
    data.getD (16 + i) 0 = data'.getD (16 + i) 0 := by
  have e := congrArg (fun l : List Byte => l[i]?) hw
  simp only [List.getElem?_take, hi, if_true, List.getElem?_drop] at e
  rw [List.getD_eq_getElem?_getD, List.getD_eq_getElem?_getD, e]

/-! ## Lemmas on `find_idat` -/

theorem find_idat_body_eq (b1 : Byte) (fs : ifstream) : find_idat_body b1 fs = fs := by
  simp [find_idat_body, List.range, List.range.loop]

/-- With enough fuel the loop of `find_idat` entered at position `p` of a good
stream ends at the end of the file, after one iteration for each byte left. -/
theorem find_idat_loop_opened (data : List Byte) :
    ∀ (fuel p : Nat) (b1 : Byte), data.length - p < fuel →
      find_idat_loop fuel (ifstream.opened data p) b1 =
        some (⟨data, max p data.length, true, true⟩, data.length - p) := by
  intro fuel
  induction fuel with
  | zero => intro p b1 h; omega
  | succ fuel ih =>
    intro p b1 h
    by_cases hp : p < data.length
    · simp only [find_idat_loop, ifstream.get_opened_lt data p b1 hp, find_idat_body_eq]
      have hf : (ifstream.opened data (p + 1)).fail = false := rfl
      rw [hf, ih (p + 1) data[p] (by omega)]
      have e1 : max (p + 1) data.length = max p data.length := by omega
      have e2 : data.length - (p + 1) + 1 = data.length - p := by omega
      simp only [Bool.false_eq_true, if_false, Option.map_some', e1, e2]
    · have hn : data[p]? = none := List.getElem?_eq_none (by omega)
      have hg : (ifstream.opened data p).get b1 = (⟨data, p, true, true⟩, b1) := by
        simp [ifstream.get, ifstream.opened, ifstream.good, hn]
      have e1 : max p data.length = p := by omega
      have e2 : data.length - p = 0 := by omega
      simp only [find_idat_loop, hg, ifstream.fail, if_true, e1, e2]

/-- On a good stream over any file, a call of `find_idat` given more iterations
than the file has bytes from offset 13 on reaches the end of the function body,
where no `return` is. -/
theorem find_idat_opened (data : List Byte) (pos fuel : Nat) (b1 : Byte)
    (h : data.length - 13 < fuel) :
    find_idat fuel (ifstream.opened data pos) b1 =
      some (.flows_off_end ⟨data, max 13 data.length, true, true⟩ (data.length - 13)) := by
  have e : (ifstream.opened data pos).seekg_beg (PNG_IHDR_SZ : Int) = ifstream.opened data 13 :=
    ifstream.seekg_beg_opened data pos 13
  rw [find_idat, e, find_idat_loop_opened data fuel 13 b1 h]
  rfl

/-! ## Where a failed `png_check_sig` leaves the cursor -/

theorem ifstream.get_failed (fs : ifstream) (c : Byte) (h : fs.failbit = true) :
    fs.get c = (fs, c) := by
  obtain ⟨d, p, e, f⟩ := fs
  simp only at h
  subst h
  simp [ifstream.get, ifstream.good]

/-- On a failed stream the loop of `png_check_sig` leaves the stream as it is. -/
theorem png_check_sig_loop_failed (n : Nat) :
    ∀ (fs : ifstream) (byte : Byte) (i : Nat), fs.failbit = true →
      (png_check_sig_loop fs byte i n).1 = fs := by
  induction n with
  | zero => intro _ _ _ _; rfl
  | succ n ih =>
    intro fs byte i h
    simp only [png_check_sig_loop, ifstream.get_failed fs byte h]
    split
    · rfl
    · exact ih fs byte (i + 1) h

/-- The loop of `png_check_sig` entered at index `i` on a good stream whose next
`m` bytes match the signature and whose byte after them does not, or is
missing: the loop stops just past the byte that differs, or on the failed
stream at the end of the file.  `hb` says that `byte` is what a successful
earlier iteration left in it. -/
theorem png_check_sig_loop_mismatch (data : List Byte) (m : Nat) :
    ∀ (n p : Nat) (byte : Byte) (i : Nat), m < n → i + n = 8 →
      (i = 0 ∨ byte.val = PNG_SIG.getD (i - 1) 0) →
      (∀ k, k < m → ∃ b : Byte, data[p + k]? = some b ∧ b.val = PNG_SIG.getD (i + k) 0) →
      (∀ b : Byte, data[p + m]? = some b → b.val ≠ PNG_SIG.getD (i + m) 0 →
        png_check_sig_loop (ifstream.opened data p) byte i n
          = (ifstream.opened data (p + m + 1), false)) ∧
      (data[p + m]? = none →
        png_check_sig_loop (ifstream.opened data p) byte i n
          = (⟨data, p + m, true, true⟩, false)) := by
  induction m with
  | zero =>
    intro n p byte i hmn hin hb _
    obtain ⟨n', rfl⟩ : ∃ n', n = n' + 1 := ⟨n - 1, by omega⟩
    constructor
    · intro b hd hne
      simp only [Nat.add_zero] at hd hne ⊢
      simp only [png_check_sig_loop, ifstream.get_opened data p byte b hd]
      rw [if_pos hne]
    · intro hd
      simp only [Nat.add_zero] at hd ⊢
      have hg : (ifstream.opened data p).get byte = (⟨data, p, true, true⟩, byte) := by
        simp [ifstream.get, ifstream.opened, ifstream.good, hd]
      simp only [png_check_sig_loop, hg]
      split
      · rfl
      · rename_i heq
        have heq : byte.val = PNG_SIG.getD i 0 := by simpa using heq
        have hi0 : i = 0 := by
          rcases hb with hb | hb
          · exact hb
          · by_contra hne
            have hnb := PNG_SIG_neighbours (i - 1) (by omega)
            rw [← hb, heq] at hnb
            apply hnb
            congr 1
            omega
        subst hi0
        have hs : (png_check_sig_loop ⟨data, p, true, true⟩ byte (0 + 1) n').1
            = ⟨data, p, true, true⟩ := png_check_sig_loop_failed n' _ byte (0 + 1) rfl
        have hf : (png_check_sig_loop ⟨data, p, true, true⟩ byte (0 + 1) n').2 = false := by
          cases hr : (png_check_sig_loop ⟨data, p, true, true⟩ byte (0 + 1) n').2
          · rfl
          · exfalso
            have e := png_check_sig_loop_stuck n' ⟨data, p, true, true⟩ byte (0 + 1) rfl hr 0
              (by omega)
            rw [heq] at e
            exact absurd e (by decide)
        exact Prod.ext hs hf
  | succ m ih =>
    intro n p byte i hmn hin hb hpre
    obtain ⟨n', rfl⟩ : ∃ n', n = n' + 1 := ⟨n - 1, by omega⟩
    obtain ⟨b0, hd0, hv0⟩ := hpre 0 (by omega)
    simp only [Nat.add_zero] at hd0 hv0
    have hstep : png_check_sig_loop (ifstream.opened data p) byte i (n' + 1)
        = png_check_sig_loop (ifstream.opened data (p + 1)) b0 (i + 1) n' := by
      simp only [png_check_sig_loop, ifstream.get_opened data p byte b0 hd0]
      rw [if_neg (by simpa using hv0)]
    have r := ih n' (p + 1) b0 (i + 1) (by omega) (by omega) (Or.inr (by simpa using hv0))
      (fun k hk => by
        obtain ⟨b', h1, h2⟩ := hpre (k + 1) (by omega)
        refine ⟨b', ?_, ?_⟩
        · rw [← h1]; congr 1; omega
        · rw [h2]; congr 1; omega)
    have ep : p + 1 + m = p + (m + 1) := by omega
    have ei : i + 1 + m = i + (m + 1) := by omega
    rw [ep, ei] at r
    rw [hstep]
    exact r

/-! ## Claims -/

/-- C2: on a stream in good state with at least four bytes from the cursor `p`
on, `read_uint` returns `b[p]*2^24 + b[p+1]*2^16 + b[p+2]*2^8 + b[p+3]`, a value
below `2^32`, and leaves the cursor at `p + 4` (the stream still good), whatever
its four locals held before. -/
theorem read_uint_big_endian (data : List Byte) (p : Nat) (l : UintLocals)
    (h : p + 4 ≤ data.length) :
    read_uint (ifstream.opened data p) l =
      (ifstream.opened data (p + 4),
        data[p].val * 2 ^ 24 + data[p + 1].val * 2 ^ 16 + data[p + 2].val * 2 ^ 8
          + data[p + 3].val)
    ∧ (read_uint (ifstream.opened data p) l).2 < 2 ^ 32 := by
  have e := read_uint_opened data p l data[p] data[p + 1] data[p + 2] data[p + 3]
    (List.getElem?_eq_getElem _) (List.getElem?_eq_getElem _) (List.getElem?_eq_getElem _)
    (List.getElem?_eq_getElem _)
  refine ⟨e, ?_⟩
  rw [e]
  have h1 := data[p].isLt
  have h2 := data[p + 1].isLt
  have h3 := data[p + 2].isLt
  have h4 := data[p + 3].isLt
  show data[p].val * 2 ^ 24 + data[p + 1].val * 2 ^ 16 + data[p + 2].val * 2 ^ 8
          + data[p + 3].val < 2 ^ 32
  omega

/-- Witness of C2 on the length field of the minimal file: the four bytes
`0, 0, 0, 13` at offset 8 read as 13, the cursor moving from 8 to 12. -/
theorem read_uint_big_endian_witness :
    read_uint (ifstream.opened minimal_png 8) ⟨7, 7, 7, 7⟩ = (ifstream.opened minimal_png 12, 13)
    ∧ (read_uint (ifstream.opened minimal_png 8) ⟨7, 7, 7, 7⟩).2 < 2 ^ 32 := by
  have h := read_uint_big_endian minimal_png 8 ⟨7, 7, 7, 7⟩ (by decide)
  refine ⟨h.1.trans ?_, h.2⟩
  decide

/-- C1: on a good stream of at least 29 bytes whose bytes 26, 27 and 28 are 0,
whatever the cursor and the locals, `png_get_ihdr` returns the header with
width = big-endian value of bytes 16..19, height = that of bytes 20..23,
bit_depth = byte 24, color_type = byte 25 and compression = filter =
interlace = 0. -/
theorem png_get_ihdr_fields (data : List Byte) (pos : Nat) (l : IhdrLocals)
    (h : 29 ≤ data.length) (h26 : data[26] = 0) (h27 : data[27] = 0) (h28 : data[28] = 0) :
    png_get_ihdr (ifstream.opened data pos) l =
      .returned ((ifstream.opened data 29).seekg_beg (to_int pos))
        { width := data[16].val * 2 ^ 24 + data[17].val * 2 ^ 16 + data[18].val * 2 ^ 8
            + data[19].val,
          height := data[20].val * 2 ^ 24 + data[21].val * 2 ^ 16 + data[22].val * 2 ^ 8
            + data[23].val,
          bit_depth := data[24], color_type := data[25],
          compression := 0, filter := 0, interlace := 0 } := by
  rw [png_get_ihdr_opened data pos l h, be_u32_eq data 16 (by omega),
    be_u32_eq data 20 (by omega)]
  simp [h26, h27, h28]

/-- Witness of C1, the second half of the claim: on the minimal well-formed
file, read from offset 8, the header is 1 x 1, bit depth 8, colour type 2,
compression, filter and interlace 0. -/
theorem png_get_ihdr_fields_witness :
    png_get_ihdr (ifstream.opened minimal_png 8) zero_locals =
      .returned (ifstream.opened minimal_png 8)
        { width := 1, height := 1, bit_depth := 8, color_type := 2,
          compression := 0, filter := 0, interlace := 0 } :=
  (png_get_ihdr_fields minimal_png 8 zero_locals (by decide) (by decide) (by decide)
    (by decide)).trans (by decide)

/-- C3: whatever the state of the stream and the content of the local `byte`,
`png_check_sig` returns false on a file shorter than 8 bytes and on a file one
of whose first 8 bytes differs from `PNG_SIG`. -/
theorem png_check_sig_rejects (fs : ifstream) (byte : Byte)
    (h : fs.data.length < 8 ∨
      ∃ i, i < 8 ∧ (fs.data[i]?).map Fin.val ≠ PNG_SIG[i]?) :
    (png_check_sig fs byte).2 = false := by
  cases hr : (png_check_sig fs byte).2
  · rfl
  · exfalso
    have r := png_check_sig_true fs byte hr
    rcases h with h | ⟨i, hi, hne⟩
    · obtain ⟨b, h1, _⟩ := r 7 (by omega)
      have := List.getElem?_eq_none (show fs.data.length ≤ 7 by omega)
      rw [this] at h1
      cases h1
    · obtain ⟨b, h1, h2⟩ := r i hi
      apply hne
      rw [h1, PNG_SIG_getElem? i hi, Option.map_some', h2]

/-- Witness of C3: the 7-byte proper prefix of the signature, the local `byte`
holding 10 (the last signature byte) before the call. -/
theorem png_check_sig_rejects_witness :
    (png_check_sig (ifstream.opened [137, 80, 78, 71, 13, 10, 26] 0) 10).2 = false :=
  png_check_sig_rejects (ifstream.opened [137, 80, 78, 71, 13, 10, 26] 0) 10
    (Or.inl (by decide))

/-- C4: on a good stream whose first 8 bytes are `PNG_SIG`, whatever the cursor
and the local `byte`, `png_check_sig` returns true: the 8 bytes at the absolute
offsets 0..7 are read (the cursor reaches 8) before the saved position is
sought again. -/
theorem png_check_sig_accepts (data : List Byte) (pos : Nat) (byte : Byte)
    (h : ∀ i, i < 8 → (data[i]?).map Fin.val = PNG_SIG[i]?) :
    png_check_sig (ifstream.opened data pos) byte
      = ((ifstream.opened data 8).seekg_beg (to_int pos), true) := by
  have hm : ∀ k, k < 8 → ∃ b : Byte, data[0 + k]? = some b ∧ b.val = PNG_SIG.getD (0 + k) 0 := by
    intro k hk
    have e := h k hk
    rw [PNG_SIG_getElem? k hk] at e
    cases hd : data[k]? with
    | none => rw [hd] at e; cases e
    | some b =>
      rw [hd] at e
      refine ⟨b, by simpa using hd, ?_⟩
      simpa using e
  have e0 : ifstream.seekg_beg (ifstream.opened data pos) 0 = ifstream.opened data 0 :=
    ifstream.seekg_beg_opened data pos 0
  simp only [png_check_sig, ifstream.tellg_opened, e0, PNG_SIG_SZ,
    png_check_sig_loop_match 8 data 0 byte 0 hm]
  rfl

/-- Witness of C4: the minimal file with the cursor at offset 33, the bytes
there (`0, 0, 0, 0, 'I', 'E', 'N', 'D'`) not being the signature. -/
theorem png_check_sig_accepts_witness :
    png_check_sig (ifstream.opened minimal_png 33) 0 = (ifstream.opened minimal_png 33, true) :=
  (png_check_sig_accepts minimal_png 33 0 (by decide)).trans (by decide)

/-- C5, as stated, fails: the pair colour type 3, bit depth 16 is not in the
table of the specification, and `png_get_ihdr` returns a header carrying it
for the minimal file with bytes 24 and 25 replaced by 16 and 3. -/
theorem png_get_ihdr_bit_depth_unchecked :
    spec_allowed_bit_depth 3 16 = false ∧
    png_get_ihdr (ifstream.opened ((minimal_png.set 24 16).set 25 3) 8) zero_locals =
      .returned (ifstream.opened ((minimal_png.set 24 16).set 25 3) 8)
        { width := 1, height := 1, bit_depth := 16, color_type := 3,
          compression := 0, filter := 0, interlace := 0 } := by
  decide

/-- C5 amended: `png_get_ihdr` makes no check of the colour type or of the bit
depth.  For every pair `(color_type, bit_depth)` of byte values, in the table
or not, carried at offsets 25 and 24 by a good stream of at least 29 bytes
whose bytes 26, 27 and 28 are 0, it returns a header with that pair. -/
theorem png_get_ihdr_any_bit_depth (color_type bit_depth : Byte) (data : List Byte) (pos : Nat)
    (l : IhdrLocals) (h : 29 ≤ data.length) (hbd : data[24] = bit_depth)
    (hct : data[25] = color_type) (h26 : data[26] = 0) (h27 : data[27] = 0)
    (h28 : data[28] = 0) :
    ∃ fs ihdr, png_get_ihdr (ifstream.opened data pos) l = .returned fs ihdr ∧
      ihdr.color_type = color_type ∧ ihdr.bit_depth = bit_depth := by
  exact ⟨_, _, png_get_ihdr_opened_ok data pos l h h26 h27 h28, hct, hbd⟩

/-- Witness of C5 amended, at a pair in the table (2, 8: the minimal file) . -/
theorem png_get_ihdr_any_bit_depth_witness :
    ∃ fs ihdr, png_get_ihdr (ifstream.opened minimal_png 8) zero_locals = .returned fs ihdr ∧
      ihdr.color_type = 2 ∧ ihdr.bit_depth = 8 :=
  png_get_ihdr_any_bit_depth 2 8 minimal_png 8 zero_locals (by decide) (by decide) (by decide)
    (by decide) (by decide) (by decide)

/-- C6, as stated, fails: with the interlace byte (offset 28) of the minimal
file set to 1, `png_get_ihdr` ends the process at the interlace check. -/
theorem png_get_ihdr_interlace_one_rejected :
    png_get_ihdr (ifstream.opened (minimal_png.set 28 1) 8) zero_locals
      = .exited .interlace := by
  decide

/-- C6 amended: the interlace byte must be 0.  On a good stream of at least 29
bytes whose compression and filter bytes are 0, `png_get_ihdr` returns a
header with interlace = 0 when byte 28 is 0, and ends the process at the
interlace check exactly when byte 28 is any other value, 1 included. -/
theorem png_get_ihdr_interlace (data : List Byte) (pos : Nat) (l : IhdrLocals)
    (h : 29 ≤ data.length) (h26 : data[26] = 0) (h27 : data[27] = 0) :
    (data[28] = 0 →
      ∃ fs ihdr, png_get_ihdr (ifstream.opened data pos) l = .returned fs ihdr ∧
        ihdr.interlace = 0) ∧
    (png_get_ihdr (ifstream.opened data pos) l = .exited .interlace ↔ data[28] ≠ 0) := by
  constructor
  · intro h28
    exact ⟨_, _, png_get_ihdr_opened_ok data pos l h h26 h27 h28, rfl⟩
  · rw [png_get_ihdr_opened data pos l h]
    by_cases h28 : data[28] = 0 <;> simp [h26, h27, h28]

/-- Witness of C6 amended: the minimal file, whose interlace byte is 0, and the
same file with the interlace byte 2. -/
theorem png_get_ihdr_interlace_witness :
    (∃ fs ihdr, png_get_ihdr (ifstream.opened minimal_png 8) zero_locals = .returned fs ihdr ∧
        ihdr.interlace = 0) ∧
    png_get_ihdr (ifstream.opened (minimal_png.set 28 2) 8) zero_locals = .exited .interlace :=
  ⟨(png_get_ihdr_interlace minimal_png 8 zero_locals (by decide) (by decide) (by decide)).1
      (by decide),
   (png_get_ihdr_interlace (minimal_png.set 28 2) 8 zero_locals (by decide) (by decide)
      (by decide)).2.mpr (by decide)⟩

/-- C7: on a good stream of at least 29 bytes, `png_get_ihdr` returns no header
when the compression byte (offset 26) or the filter byte (offset 27) is not 0:
it ends the process at the compression check whenever byte 26 is not 0,
whatever bytes 27 and 28 are, and at the filter check whenever byte 26 is 0 and
byte 27 is not. -/
theorem png_get_ihdr_compression_filter (data : List Byte) (pos : Nat) (l : IhdrLocals)
    (h : 29 ≤ data.length) :
    (data[26] ≠ 0 → png_get_ihdr (ifstream.opened data pos) l = .exited .compression) ∧
    (data[26] = 0 → data[27] ≠ 0 →
      png_get_ihdr (ifstream.opened data pos) l = .exited .filter) := by
  rw [png_get_ihdr_opened data pos l h]
  constructor
  · intro h26
    simp [h26]
  · intro h26 h27
    simp [h26, h27]

/-- Witness of C7: the minimal file with its compression byte set to 1 (and
the filter byte to 5), and with its filter byte alone set to 5. -/
theorem png_get_ihdr_compression_filter_witness :
    png_get_ihdr (ifstream.opened ((minimal_png.set 26 1).set 27 5) 8) zero_locals
      = .exited .compression ∧
    png_get_ihdr (ifstream.opened (minimal_png.set 27 5) 8) zero_locals = .exited .filter :=
  ⟨(png_get_ihdr_compression_filter ((minimal_png.set 26 1).set 27 5) 8 zero_locals
      (by decide)).1 (by decide),
   (png_get_ihdr_compression_filter (minimal_png.set 27 5) 8 zero_locals
      (by decide)).2 (by decide) (by decide)⟩

/-- C8, as stated, fails: for the minimal file with its width field (bytes
16..19) set to 0, `png_get_ihdr` returns a header of width 0. -/
theorem png_get_ihdr_zero_width_returned :
    png_get_ihdr (ifstream.opened (minimal_png.set 19 0) 8) zero_locals =
      .returned (ifstream.opened (minimal_png.set 19 0) 8)
        { width := 0, height := 1, bit_depth := 8, color_type := 2,
          compression := 0, filter := 0, interlace := 0 } := by
  decide

/-- C8 amended: `png_get_ihdr` makes no check of the dimensions.  On a good
stream of at least 29 bytes whose bytes 26, 27 and 28 are 0 and whose width
field (bytes 16..19) or height field (bytes 20..23) is zero, it returns a
header, with the width and the height as read, so with width 0 or height 0. -/
theorem png_get_ihdr_dimensions_unchecked (data : List Byte) (pos : Nat) (l : IhdrLocals)
    (h : 29 ≤ data.length) (h26 : data[26] = 0) (h27 : data[27] = 0) (h28 : data[28] = 0)
    (hz : be_u32 data 16 = 0 ∨ be_u32 data 20 = 0) :
    ∃ fs ihdr, png_get_ihdr (ifstream.opened data pos) l = .returned fs ihdr ∧
      ihdr.width = be_u32 data 16 ∧ ihdr.height = be_u32 data 20 ∧
      (ihdr.width = 0 ∨ ihdr.height = 0) :=
  ⟨_, _, png_get_ihdr_opened_ok data pos l h h26 h27 h28, rfl, rfl, hz⟩

/-- Witness of C8 amended, at the minimal file with its height field set to 0. -/
theorem png_get_ihdr_dimensions_unchecked_witness :
    ∃ fs ihdr, png_get_ihdr (ifstream.opened (minimal_png.set 23 0) 8) zero_locals
        = .returned fs ihdr ∧
      ihdr.width = be_u32 (minimal_png.set 23 0) 16 ∧
      ihdr.height = be_u32 (minimal_png.set 23 0) 20 ∧
      (ihdr.width = 0 ∨ ihdr.height = 0) :=
  png_get_ihdr_dimensions_unchecked (minimal_png.set 23 0) 8 zero_locals (by decide) (by decide)
    (by decide) (by decide) (Or.inr (by decide))

/-- C9, as stated, fails: for the minimal file with the declared length of its
first chunk (bytes 8..11) changed from 13 to 12, and to 14, `png_get_ihdr`
returns the header all the same. -/
theorem png_get_ihdr_length_unchecked :
    png_get_ihdr (ifstream.opened (minimal_png.set 11 12) 8) zero_locals =
      .returned (ifstream.opened (minimal_png.set 11 12) 8)
        { width := 1, height := 1, bit_depth := 8, color_type := 2,
          compression := 0, filter := 0, interlace := 0 } ∧
    png_get_ihdr (ifstream.opened (minimal_png.set 11 14) 8) zero_locals =
      .returned (ifstream.opened (minimal_png.set 11 14) 8)
        { width := 1, height := 1, bit_depth := 8, color_type := 2,
          compression := 0, filter := 0, interlace := 0 } := by
  decide

/-- C9 amended: `png_get_ihdr` skips the declared length of the first chunk
without reading it.  Whatever the four bytes at offsets 8..11 are, 13 or not,
the outcome (the header returned, or the check that ends the process) is the
same, for every state of the stream and all other bytes of the file. -/
theorem png_get_ihdr_ignores_length (sig len len' rest : List Byte) (pos : Nat)
    (eofbit failbit : Bool) (l : IhdrLocals)
    (hs : sig.length = 8) (hl : len.length = 4) (hl' : len'.length = 4) :
    (png_get_ihdr ⟨sig ++ len ++ rest, pos, eofbit, failbit⟩ l).outcome =
      (png_get_ihdr ⟨sig ++ len' ++ rest, pos, eofbit, failbit⟩ l).outcome := by
  refine png_get_ihdr_outcome_sim ⟨sig ++ len ++ rest, pos, eofbit, failbit⟩
    ⟨sig ++ len' ++ rest, pos, eofbit, failbit⟩ l rfl rfl ?_
  intro i hi
  exact getElem?_append_of_length (sig ++ len) (sig ++ len') rest
    (by simp [hl, hl']) i (by simp only [List.length_append, hs, hl]; omega)

/-- Witness of C9 amended: the minimal file with declared length 12 against
the same file with declared length 13. -/
theorem png_get_ihdr_ignores_length_witness :
    (png_get_ihdr ⟨minimal_png.take 8 ++ [0, 0, 0, 12] ++ minimal_png.drop 12, 8, false, false⟩
        zero_locals).outcome =
      (png_get_ihdr ⟨minimal_png.take 8 ++ [0, 0, 0, 13] ++ minimal_png.drop 12, 8, false, false⟩
        zero_locals).outcome :=
  png_get_ihdr_ignores_length (minimal_png.take 8) [0, 0, 0, 12] [0, 0, 0, 13]
    (minimal_png.drop 12) 8 false false zero_locals (by decide) (by decide) (by decide)

/-- C10, as stated, fails: for the minimal file with the type tag of its first
chunk (bytes 12..15) changed from `IHDR` to `IDAT`, `png_get_ihdr` returns the
header all the same. -/
theorem png_get_ihdr_tag_unchecked :
    png_get_ihdr (ifstream.opened (((minimal_png.set 13 68).set 14 65).set 15 84) 8) zero_locals =
      .returned (ifstream.opened (((minimal_png.set 13 68).set 14 65).set 15 84) 8)
        { width := 1, height := 1, bit_depth := 8, color_type := 2,
          compression := 0, filter := 0, interlace := 0 } := by
  decide

/-- C10 amended: `png_get_ihdr` skips the type tag of the first chunk without
reading it.  Whatever the four bytes at offsets 12..15 are, `IHDR` or not, the
outcome (the header returned, or the check that ends the process) is the same,
for every state of the stream and all other bytes of the file. -/
theorem png_get_ihdr_ignores_tag (head tag tag' rest : List Byte) (pos : Nat)
    (eofbit failbit : Bool) (l : IhdrLocals)
    (hh : head.length = 12) (ht : tag.length = 4) (ht' : tag'.length = 4) :
    (png_get_ihdr ⟨head ++ tag ++ rest, pos, eofbit, failbit⟩ l).outcome =
      (png_get_ihdr ⟨head ++ tag' ++ rest, pos, eofbit, failbit⟩ l).outcome := by
  refine png_get_ihdr_outcome_sim ⟨head ++ tag ++ rest, pos, eofbit, failbit⟩
    ⟨head ++ tag' ++ rest, pos, eofbit, failbit⟩ l rfl rfl ?_
  intro i hi
  exact getElem?_append_of_length (head ++ tag) (head ++ tag') rest
    (by simp [ht, ht']) i (by simp only [List.length_append, hh, ht]; omega)

/-- Witness of C10 amended: the minimal file with the tag `IDAT` against the
same file with the tag `IHDR`. -/
theorem png_get_ihdr_ignores_tag_witness :
    (png_get_ihdr ⟨minimal_png.take 12 ++ [73, 68, 65, 84] ++ minimal_png.drop 16, 8, false, false⟩
        zero_locals).outcome =
      (png_get_ihdr ⟨minimal_png.take 12 ++ [73, 72, 68, 82] ++ minimal_png.drop 16, 8, false, false⟩
        zero_locals).outcome :=
  png_get_ihdr_ignores_tag (minimal_png.take 12) [73, 68, 65, 84] [73, 72, 68, 82]
    (minimal_png.drop 16) 8 false false zero_locals (by decide) (by decide) (by decide)

/-- C11, the code at two failing inputs.  On the first 28 bytes of the minimal
file (the interlace byte cut off) `png_get_ihdr` returns a header: the read of
the interlace byte fails, `byte` keeps the filter byte 0 and passes the
interlace check; the stream is left failed at offset 28.  On the empty file
every read fails and the header returned is the content the locals had. -/
theorem png_get_ihdr_short_stream_returns :
    png_get_ihdr (ifstream.opened (minimal_png.take 28) 8) zero_locals =
      .returned ⟨minimal_png.take 28, 28, false, true⟩
        { width := 1, height := 1, bit_depth := 8, color_type := 2,
          compression := 0, filter := 0, interlace := 0 } ∧
    png_get_ihdr (ifstream.opened [] 0) zero_locals =
      .returned ⟨[], 16, false, true⟩
        { width := 0, height := 0, bit_depth := 0, color_type := 0,
          compression := 0, filter := 0, interlace := 0 } := by
  decide

/-- C12, the code at two failing inputs, each returning a header with the
cursor not where it was.  On the first 28 bytes of the minimal file, entered
at offset 8, the failed read blocks the last `seekg`: the stream is left failed
at offset 28.  On the whole minimal file entered at offset `2^31`, the
position saved in `int cur` is `-2^31`, the last `seekg` fails and the stream
is left failed at offset 29. -/
theorem png_get_ihdr_cursor_not_restored :
    png_get_ihdr (ifstream.opened (minimal_png.take 28) 8) zero_locals =
      .returned ⟨minimal_png.take 28, 28, false, true⟩
        { width := 1, height := 1, bit_depth := 8, color_type := 2,
          compression := 0, filter := 0, interlace := 0 } ∧
    png_get_ihdr (ifstream.opened minimal_png (2 ^ 31)) zero_locals =
      .returned ⟨minimal_png, 29, false, true⟩
        { width := 1, height := 1, bit_depth := 8, color_type := 2,
          compression := 0, filter := 0, interlace := 0 } := by
  decide

/-- C13, as stated, fails on both paths.  On the minimal file, entered at
offset 0, the check succeeds and the cursor is back at offset 0; with the first
byte of the file changed the check fails and the cursor is at offset 1. -/
theorem png_check_sig_cursor_not_eight :
    png_check_sig (ifstream.opened minimal_png 0) 0 = (ifstream.opened minimal_png 0, true) ∧
    png_check_sig (ifstream.opened (minimal_png.set 0 0) 0) 0
      = (ifstream.opened (minimal_png.set 0 0) 1, false) := by
  decide

/-- C13 amended: when `png_check_sig` is called on a good stream with the cursor
at offset 0, whatever the local `byte` held, and `j` is the number of leading
bytes of the file that match the signature: with `j = 8` the check succeeds and
the stream is left as it was, the cursor at offset 0 (the saved position is
sought again); with `j < 8` the check fails and the cursor is at offset
`j + 1`, just past the first byte that differs, or, when the file has these
`j` bytes only, at its end, offset `j`, the stream failed. -/
theorem png_check_sig_cursor (data : List Byte) (byte : Byte) (j : Nat) (hj : j ≤ 8)
    (hpre : ∀ k, k < j → (data[k]?).map Fin.val = PNG_SIG[k]?)
    (hstop : j = 8 ∨ (data[j]?).map Fin.val ≠ PNG_SIG[j]?) :
    png_check_sig (ifstream.opened data 0) byte =
      if j = 8 then (ifstream.opened data 0, true)
      else if j < data.length then (ifstream.opened data (j + 1), false)
      else (⟨data, data.length, true, true⟩, false) := by
  have e0 : ifstream.seekg_beg (ifstream.opened data 0) 0 = ifstream.opened data 0 :=
    ifstream.seekg_beg_opened data 0 0
  have hm : ∀ k, k < j → ∃ b : Byte, data[0 + k]? = some b ∧
      b.val = PNG_SIG.getD (0 + k) 0 := by
    intro k hk
    have e := hpre k hk
    rw [PNG_SIG_getElem? k (by omega)] at e
    cases hd : data[k]? with
    | none => rw [hd] at e; cases e
    | some b =>
      rw [hd] at e
      exact ⟨b, by simpa using hd, by simpa using e⟩
  by_cases h8 : j = 8
  · subst h8
    simp only [png_check_sig, ifstream.tellg_opened, e0, PNG_SIG_SZ,
      png_check_sig_loop_match 8 data 0 byte 0 hm, if_true]
    exact congrArg (fun fs => (fs, true)) (ifstream.seekg_beg_opened data 8 0)
  · have hj8 : j < 8 := by omega
    have hne : (data[j]?).map Fin.val ≠ some (PNG_SIG.getD j 0) := by
      rcases hstop with h | h
      · exact absurd h h8
      · rwa [PNG_SIG_getElem? j hj8] at h
    have M := png_check_sig_loop_mismatch data j 8 0 byte 0 hj8 rfl (Or.inl rfl) hm
    simp only [Nat.zero_add] at M
    rw [if_neg h8]
    by_cases hl : j < data.length
    · have hd : data[j]? = some data[j] := List.getElem?_eq_getElem hl
      have hv : (data[j]).val ≠ PNG_SIG.getD j 0 := by
        intro hv
        apply hne
        rw [hd, Option.map_some', hv]
      simp only [png_check_sig, ifstream.tellg_opened, e0, PNG_SIG_SZ, M.1 data[j] hd hv]
      rw [if_pos hl]
      rfl
    · have hd : data[j]? = none := List.getElem?_eq_none (by omega)
      have hlen : data.length = j := by
        rcases Nat.eq_zero_or_pos j with h0 | h0
        · omega
        · obtain ⟨b, h1, _⟩ := hm (j - 1) (by omega)
          have hlt : 0 + (j - 1) < data.length := by
            by_contra hc
            rw [List.getElem?_eq_none (by omega)] at h1
            cases h1
          omega
      simp only [png_check_sig, ifstream.tellg_opened, e0, PNG_SIG_SZ, M.2 hd]
      rw [if_neg hl, hlen]
      rfl

/-- Witness of C13 amended: the minimal file with its fourth byte changed, so
that three bytes match; the check fails with the cursor at offset 4. -/
theorem png_check_sig_cursor_witness :
    png_check_sig (ifstream.opened (minimal_png.set 3 0) 0) 0
      = (ifstream.opened (minimal_png.set 3 0) 4, false) :=
  (png_check_sig_cursor (minimal_png.set 3 0) 0 3 (by decide) (by decide)
    (Or.inr (by decide))).trans (by decide)

set_option maxRecDepth 8000 in
/-- C14, the code at a failing input, the minimal file with colour type 6
(chunks `IHDR` at offset 8 and `IEND` at offset 33).  After the header is got
and skipped the cursor is at offset 29, the first byte of the CRC of `IHDR`,
not at offset 33; `png_get_idat` then reads that CRC (2423739358) as chunk
length and the length field of `IEND` (0) as chunk type, not the length (0)
and the type `IEND` (1229278788) of the chunk at offset 33. -/
theorem main_skip_ihdr_stops_at_crc :
    main_skip_ihdr (ifstream.opened minimal_rgba_png 0) main_zero_locals =
      .returned (ifstream.opened minimal_rgba_png 29)
        { width := 1, height := 1, bit_depth := 8, color_type := 6,
          compression := 0, filter := 0, interlace := 0 } ∧
    main_parse (ifstream.opened minimal_rgba_png 0) main_zero_locals =
      .done (ifstream.opened minimal_rgba_png 37)
        { width := 1, height := 1, bit_depth := 8, color_type := 6,
          compression := 0, filter := 0, interlace := 0 }
        (some (2423739358, 0)) ∧
    be_u32 minimal_rgba_png 29 = 2423739358 ∧
    be_u32 minimal_rgba_png 33 = 0 ∧ be_u32 minimal_rgba_png 37 = 1229278788 := by
  decide

/-- C15, the code at a failing input: a string of `2^31` characters that ends
in `.png`, so one that has the PNG extension, is rejected, its size converted
to `int` being negative. -/
theorem is_png_ext_rejects_huge :
    is_png_ext (List.replicate (2 ^ 31 - 4) 'a' ++ ['.', 'p', 'n', 'g']) = false ∧
    4 ≤ (List.replicate (2 ^ 31 - 4) 'a' ++ ['.', 'p', 'n', 'g']).length ∧
    (List.replicate (2 ^ 31 - 4) 'a' ++ ['.', 'p', 'n', 'g']).drop
      ((List.replicate (2 ^ 31 - 4) 'a' ++ ['.', 'p', 'n', 'g']).length - 4)
      = ['.', 'p', 'n', 'g'] := by
  exact is_png_ext_of_int_overflow _ (List.length_replicate _ _)

/-- C16: for any two good streams of at least 29 bytes with the same bytes at
the offsets 16 to 28, whatever their other bytes, their cursors and the
content of the locals of the two calls, `png_get_ihdr` gives the same outcome:
the same header, or the process ended at the same check. -/
theorem png_get_ihdr_depends_on_16_28 (data data' : List Byte) (pos pos' : Nat)
    (l l' : IhdrLocals) (h : 29 ≤ data.length) (h' : 29 ≤ data'.length)
    (hw : (data.drop 16).take 13 = (data'.drop 16).take 13) :
    (png_get_ihdr (ifstream.opened data pos) l).outcome =
      (png_get_ihdr (ifstream.opened data' pos') l').outcome := by
  rw [png_get_ihdr_opened_outcome data pos l h, png_get_ihdr_opened_outcome data' pos' l' h']
  have e := getD_of_window data data' hw
  have e0 : data.getD 16 0 = data'.getD 16 0 := e 0 (by omega)
  have e1 : data.getD 17 0 = data'.getD 17 0 := e 1 (by omega)
  have e2 : data.getD 18 0 = data'.getD 18 0 := e 2 (by omega)
  have e3 : data.getD 19 0 = data'.getD 19 0 := e 3 (by omega)
  have e4 : data.getD 20 0 = data'.getD 20 0 := e 4 (by omega)
  have e5 : data.getD 21 0 = data'.getD 21 0 := e 5 (by omega)
  have e6 : data.getD 22 0 = data'.getD 22 0 := e 6 (by omega)
  have e7 : data.getD 23 0 = data'.getD 23 0 := e 7 (by omega)
  have e8 : data.getD 24 0 = data'.getD 24 0 := e 8 (by omega)
  have e9 : data.getD 25 0 = data'.getD 25 0 := e 9 (by omega)
  have e10 : data.getD 26 0 = data'.getD 26 0 := e 10 (by omega)
  have e11 : data.getD 27 0 = data'.getD 27 0 := e 11 (by omega)
  have e12 : data.getD 28 0 = data'.getD 28 0 := e 12 (by omega)
  have ew : be_u32 data 16 = be_u32 data' 16 := by
    simp only [be_u32, e0, e1, e2, e3]
  have eh : be_u32 data 20 = be_u32 data' 20 := by
    simp only [be_u32, e4, e5, e6, e7]
  rw [ew, eh, e8, e9, e10, e11, e12]

/-- Witness of C16: the minimal file entered at offset 8 against a file of 29
bytes, all 0 before offset 16 and nothing after offset 28, entered at offset 3
with other locals. -/
theorem png_get_ihdr_depends_on_16_28_witness :
    (png_get_ihdr (ifstream.opened minimal_png 8) zero_locals).outcome =
      (png_get_ihdr
        (ifstream.opened (List.replicate 16 0 ++ [0, 0, 0, 1, 0, 0, 0, 1, 8, 2, 0, 0, 0]) 3)
        ⟨9, ⟨1, 2, 3, 4⟩, ⟨5, 6, 7, 8⟩⟩).outcome :=
  png_get_ihdr_depends_on_16_28 minimal_png
    (List.replicate 16 0 ++ [0, 0, 0, 1, 0, 0, 0, 1, 8, 2, 0, 0, 0]) 8 3 zero_locals
    ⟨9, ⟨1, 2, 3, 4⟩, ⟨5, 6, 7, 8⟩⟩ (by decide) (by decide) (by decide)

end PngUtil
